import Mathlib

/-!
Shallow embedding of `src/adaptive_resource_pool.hpp`: the slot table of
`AdaptiveResourcePool<T>` (the parallel vectors `resources_`, `busy_`,
`released_`), its acquire/release protocol, the adaptive restore/release
passes, and the destructor's teardown.  All public operations run under one
mutex in the source, so each is modelled as a pure function on the pool state;
the logger is modelled as an append-only list of messages; a `T*` handle is
modelled as `Option R` (`none` is the null pointer, and a slot whose
`unique_ptr` is empty yields `none` from `.get()`).
-/

namespace ARP

/-- One slot of the pool: the optionally-owned resource (`none` models an empty
`unique_ptr`), the `busy_[i]` flag and the `released_[i]` flag. -/
structure Slot (R : Type) where
  resource : Option R
  busy : Bool
  released : Bool
deriving DecidableEq, Repr

/-- The idleness test used by the scans: `!busy_[i].load() && !released_[i]`. -/
def Slot.isIdle {R : Type} (sl : Slot R) : Bool := !sl.busy && !sl.released

/-- Pool state: the slot table plus the stream of messages handed to the
logger, in order. -/
structure PoolState (R : Type) where
  slots : List (Slot R)
  log : List String
deriving DecidableEq, Repr

/-- The `Params` callbacks the pool logic reads.  The two admission predicates
are optional (an empty `std::function` tests false); `restore_func` is a pure
map from slot index to the optional restored resource; `release_func` is an
external effect whose result the pool never observes, so only its
configured-or-not bit is kept (it matters in the destructor). -/
structure Params (R : Type) where
  can_restore : Option (Nat → Bool)
  should_release : Option (Nat → Bool)
  restore_func : Nat → Option R
  has_release_func : Bool

/-- The query `activeCount()`: `std::count(released_.begin(), released_.end(), false)`. -/
def activeCountL {R : Type} (slots : List (Slot R)) : Nat :=
  (slots.filter (fun sl => !sl.released)).length

/-- The query `idleCount()`: the number of slots with `!busy_[i].load() && !released_[i]`. -/
def idleCountL {R : Type} (slots : List (Slot R)) : Nat :=
  (slots.filter (fun sl => sl.isIdle)).length

/-- The constructor: `resources_ = resource_initializer()`, `busy_` and
`released_` resized to match, all flags false. -/
def initPool {R : Type} (init : List (Option R)) : PoolState R :=
  { slots := init.map (fun r => { resource := r, busy := false, released := false }),
    log := [] }

/-- The loop body of `maybeRecover`, walking the slots whose absolute index
starts at `i`: each released slot is offered to `restore_func`; on success the
slot becomes idle with the new resource installed, on failure it stays released
and a diagnostic is emitted. -/
def recoverLoop {R : Type} (f : Nat → Option R) (i : Nat) :
    List (Slot R) → List (Slot R) × List String
  | [] => ([], [])
  | sl :: rest =>
    let tail := recoverLoop f (i + 1) rest
    if sl.released then
      match f i with
      | some r =>
          ({ resource := some r, busy := false, released := false } :: tail.1,
           ("Restored resource[" ++ toString i ++ "]") :: tail.2)
      | none =>
          (sl :: tail.1, ("Failed to restore resource[" ++ toString i ++ "]") :: tail.2)
    else (sl :: tail.1, tail.2)

/-- The pass `maybeRecover()`: when a restore-admission predicate is configured and
admits the active count computed before the pass, run the restore loop over
the whole table. -/
def maybeRecover {R : Type} (p : Params R) (s : PoolState R) : PoolState R :=
  match p.can_restore with
  | none => s
  | some pred =>
    if pred (activeCountL s.slots) then
      { slots := (recoverLoop p.restore_func 0 s.slots).1,
        log := s.log ++ (recoverLoop p.restore_func 0 s.slots).2 }
    else s

/-- The loop body of `maybeReleaseOne`, walking slots from absolute index `i`;
`active` is `activeCount()` computed once before the loop.  The first idle slot
found is torn down (`busy := true`, resource dropped, `released := true`)
unless the safety floor `active ≤ 1` holds, and the loop stops either way. -/
def releaseLoop {R : Type} (active : Nat) (i : Nat) :
    List (Slot R) → List (Slot R) × List String
  | [] => ([], [])
  | sl :: rest =>
    if sl.isIdle then
      if active ≤ 1 then (sl :: rest, [])
      else ({ resource := none, busy := true, released := true } :: rest,
            ["Released resource[" ++ toString i ++ "]"])
    else
      let tail := releaseLoop active (i + 1) rest
      (sl :: tail.1, tail.2)

/-- The pass `maybeReleaseOne(start_index)`: run the release loop on the table suffix
beginning at `start`. -/
def maybeReleaseOne {R : Type} (s : PoolState R) (start : Nat) : PoolState R :=
  { slots := s.slots.take start
      ++ (releaseLoop (activeCountL s.slots) start (s.slots.drop start)).1,
    log := s.log ++ (releaseLoop (activeCountL s.slots) start (s.slots.drop start)).2 }

/-- The scan loop of `acquire`, walking slots from absolute index `i`; `active`
is the active count of the whole table (the scan itself never changes it, so
the value `activeCount()` returns at the candidate equals the one computed
before the scan).  At the first idle slot: if the release-admission predicate
is configured and admits, run the release loop from there and stop with a null
result; otherwise claim the slot and return its resource pointer. -/
def scanLoop {R : Type} (shouldRel : Option (Nat → Bool)) (active : Nat) (i : Nat) :
    List (Slot R) → Option R × List (Slot R) × List String
  | [] => (none, [], [])
  | sl :: rest =>
    if sl.isIdle then
      match shouldRel with
      | some pred =>
        if pred active then
          let rel := releaseLoop active i (sl :: rest)
          (none, rel.1, rel.2)
        else (sl.resource, { sl with busy := true } :: rest, [])
      | none => (sl.resource, { sl with busy := true } :: rest, [])
    else
      let tail := scanLoop shouldRel active (i + 1) rest
      (tail.1, sl :: tail.2.1, tail.2.2)

/-- The scan-and-claim part of `acquire`, run on the state left by the
recovery pass. -/
def scanPart {R : Type} (p : Params R) (s : PoolState R) : Option R × PoolState R :=
  ((scanLoop p.should_release (activeCountL s.slots) 0 s.slots).1,
   { slots := (scanLoop p.should_release (activeCountL s.slots) 0 s.slots).2.1,
     log := s.log ++ (scanLoop p.should_release (activeCountL s.slots) 0 s.slots).2.2 })

/-- The operation `acquire()`: the recovery pass runs first, unconditionally, then the scan;
the result is the claimed resource pointer or `none`. -/
def acquire {R : Type} (p : Params R) (s : PoolState R) : Option R × PoolState R :=
  scanPart p (maybeRecover p s)

/-- The search loop of `release`: find the first slot whose current resource
pointer (`resources_[i].get()`) equals the handle and clear its busy flag;
`none` when no slot matches. -/
def releaseList {R : Type} [DecidableEq R] (h : Option R) :
    List (Slot R) → Option (List (Slot R))
  | [] => none
  | sl :: rest =>
    if sl.resource = h then some ({ sl with busy := false } :: rest)
    else (releaseList h rest).map (fun l => sl :: l)

/-- The operation `release(res_ptr)`: clear the busy flag of the first slot owning the
handle, or log that the handle is unknown; nothing else changes. -/
def release {R : Type} [DecidableEq R] (h : Option R) (s : PoolState R) : PoolState R :=
  match releaseList h s.slots with
  | some slots => { s with slots := slots }
  | none => { s with log := s.log ++ ["Tried to release unknown resource."] }

/-- The destructor's calls to `release_func`, in index order: one call per
non-released slot, receiving that slot's `unique_ptr`; no calls when no release
action is configured. -/
def destructorCallsAux {R : Type} (hasRel : Bool) (i : Nat) :
    List (Slot R) → List (Nat × Option R)
  | [] => []
  | sl :: rest =>
    if !sl.released && hasRel then
      (i, sl.resource) :: destructorCallsAux hasRel (i + 1) rest
    else destructorCallsAux hasRel (i + 1) rest

/-- The destructor's `release_func` call trace over the whole table. -/
def destructorCalls {R : Type} (hasRel : Bool) (slots : List (Slot R)) :
    List (Nat × Option R) :=
  destructorCallsAux hasRel 0 slots

/-- The slot table as left by the destructor's loop just before the final
`clear()` calls: every non-released slot has had `resources_[i].reset()`;
released slots are skipped untouched. -/
def destructSlots {R : Type} : List (Slot R) → List (Slot R) :=
  List.map (fun sl => if sl.released then sl else { sl with resource := none })

/-- A public mutating call: `acquire()` or `release(h)`. -/
inductive PoolOp (R : Type) where
  | acq : PoolOp R
  | rel : Option R → PoolOp R

/-- Run one public mutating call, keeping only the state. -/
def applyOp {R : Type} [DecidableEq R] (p : Params R) (op : PoolOp R) (s : PoolState R) :
    PoolState R :=
  match op with
  | .acq => (acquire p s).2
  | .rel h => release h s

/-- Run a sequence of public mutating calls. -/
def runOps {R : Type} [DecidableEq R] (p : Params R) :
    List (PoolOp R) → PoolState R → PoolState R
  | [], s => s
  | op :: ops, s => runOps p ops (applyOp p op s)

/-- Repeated acquisition: `n` successive `acquire()` calls, collecting the returned pointers. -/
def acquireMany {R : Type} (p : Params R) : Nat → PoolState R → List (Option R) × PoolState R
  | 0, s => ([], s)
  | n + 1, s =>
    let one := acquire p s
    let rest := acquireMany p n one.2
    (one.1 :: rest.1, rest.2)

/-! ### Basic counting lemmas -/

theorem activeCountL_nil {R : Type} : activeCountL ([] : List (Slot R)) = 0 := rfl

theorem activeCountL_cons {R : Type} (sl : Slot R) (l : List (Slot R)) :
    activeCountL (sl :: l) = (if sl.released then 0 else 1) + activeCountL l := by
  unfold activeCountL
  rw [List.filter_cons]
  cases h : sl.released <;> simp [h, Nat.add_comm]

theorem activeCountL_append {R : Type} (a b : List (Slot R)) :
    activeCountL (a ++ b) = activeCountL a + activeCountL b := by
  unfold activeCountL
  rw [List.filter_append, List.length_append]

theorem activeCountL_busy_irrel {R : Type} (sl : Slot R) (b : Bool) (l : List (Slot R)) :
    activeCountL ({ sl with busy := b } :: l) = activeCountL (sl :: l) := by
  rw [activeCountL_cons, activeCountL_cons]

/-- `maybeRecover` is the identity when no restore-admission predicate is
configured. -/
theorem maybeRecover_none {R : Type} (p : Params R) (s : PoolState R)
    (h : p.can_restore = none) : maybeRecover p s = s := by
  unfold maybeRecover
  rw [h]

/-! ### Concrete fixtures for witnesses and the example scenario -/

/-- Shrink predicate `active_count > 1`, restore predicate always false
(the configuration of spec scenario 5). -/
def scenParams : Params Nat :=
  { can_restore := some (fun _ => false),
    should_release := some (fun n => decide (1 < n)),
    restore_func := fun _ => none,
    has_release_func := true }

/-- No policies configured at all. -/
def noPolicy : Params Nat :=
  { can_restore := none, should_release := none,
    restore_func := fun _ => none, has_release_func := true }

/-- A freshly constructed pool of three distinct resources. -/
def pool3 : PoolState Nat := initPool [some 10, some 20, some 30]

/-- C1 counterexample: in the scenario of the claim (`N = 3`, all slots idle,
shrink predicate `active_count > 1`, restore predicate always false) the claim's
conjunction fails, because `idleCount()` afterwards is not `1`: only one slot is
torn down, leaving two idle slots. -/
theorem C1_counterexample :
    ¬ ((acquire scenParams pool3).1 = none
       ∧ (acquire scenParams pool3).2.slots[0]? =
           some { resource := none, busy := true, released := true }
       ∧ idleCountL (acquire scenParams pool3).2.slots = 1
       ∧ activeCountL pool3.slots = 3
       ∧ activeCountL (acquire scenParams pool3).2.slots = 2) := by
  decide

/-- C1 (amended): with a pool of 3 idle slots, shrink predicate
`active_count > 1` and restore predicate always false, a single acquire call
releases the first idle slot instead of returning it (its slot ends up
`released` with no resource and a release diagnostic is logged), the call
returns an empty result, `idleCount()` equals 2 afterwards, and the active
count drops from 3 to 2. -/
theorem C1_shrink_scenario :
    (acquire scenParams pool3).1 = none
    ∧ (acquire scenParams pool3).2.slots[0]? =
        some { resource := none, busy := true, released := true }
    ∧ ("Released resource[0]") ∈ (acquire scenParams pool3).2.log
    ∧ idleCountL (acquire scenParams pool3).2.slots = 2
    ∧ activeCountL pool3.slots = 3
    ∧ activeCountL (acquire scenParams pool3).2.slots = 2 := by
  decide

/-! ### C2: the shrink branch preempts the scan -/

/-- On a table whose prefix `a` has no idle slot and whose next slot `sl` is
idle, a scan with an admitting release predicate stops at `sl`, runs the
release loop from there, and returns a null result. -/
theorem scanLoop_shrink {R : Type} (pred : Nat → Bool) (active : Nat)
    (b : List (Slot R)) (sl : Slot R) (hsl : sl.isIdle = true)
    (hpred : pred active = true) :
    ∀ (a : List (Slot R)) (i : Nat), (∀ x ∈ a, x.isIdle = false) →
    scanLoop (some pred) active i (a ++ sl :: b) =
      (none, a ++ (releaseLoop active (i + a.length) (sl :: b)).1,
       (releaseLoop active (i + a.length) (sl :: b)).2) := by
  intro a
  induction a with
  | nil =>
    intro i _
    simp [scanLoop, hsl, hpred]
  | cons x xs ih =>
    intro i hx
    have hxi : x.isIdle = false := hx x (List.mem_cons_self x xs)
    have ihh := ih (i + 1) (fun y hy => hx y (List.mem_cons_of_mem x hy))
    have harith : i + 1 + xs.length = i + (xs.length + 1) := by omega
    rw [harith] at ihh
    simp only [List.cons_append, scanLoop, hxi, Bool.false_eq_true, if_false,
      List.append_eq, List.length_cons, ihh]

/-- C2: during acquire's scan, when the release-admission predicate is
configured and admits the active count at the moment the first idle candidate
is found, the candidate is not handed out: the call returns an empty result and
the state is exactly the one produced by the shrink sub-protocol started at the
candidate's index — even when later slots in the table are idle (`b` is
arbitrary). -/
theorem C2_shrink_preempts_scan {R : Type} (p : Params R) (pred : Nat → Bool)
    (s : PoolState R) (a b : List (Slot R)) (sl : Slot R)
    (hp : p.should_release = some pred)
    (hs : (maybeRecover p s).slots = a ++ sl :: b)
    (ha : ∀ x ∈ a, x.isIdle = false)
    (hsl : sl.isIdle = true)
    (hpred : pred (activeCountL (maybeRecover p s).slots) = true) :
    acquire p s = (none, maybeReleaseOne (maybeRecover p s) a.length) := by
  unfold acquire scanPart maybeReleaseOne
  rw [hs] at hpred ⊢
  rw [hp, scanLoop_shrink pred _ b sl hsl hpred a 0 ha]
  rw [List.take_left, List.drop_left]
  simp

/-- Witness for C2: a pool whose first slot is busy, second idle, third idle,
with shrink predicate `active_count > 1`; the acquire call returns nothing and
the state is the shrink protocol's output at index 1, although slot 2 is idle. -/
theorem C2_witness :
    (({ resource := some 30, busy := false, released := false } : Slot Nat).isIdle = true)
    ∧ acquire scenParams
        { slots := [{ resource := some 10, busy := true, released := false },
                    { resource := some 20, busy := false, released := false },
                    { resource := some 30, busy := false, released := false }],
          log := [] }
      = (none,
         maybeReleaseOne
           (maybeRecover scenParams
             { slots := [{ resource := some 10, busy := true, released := false },
                         { resource := some 20, busy := false, released := false },
                         { resource := some 30, busy := false, released := false }],
               log := [] }) 1) :=
  ⟨by decide,
   C2_shrink_preempts_scan scenParams (fun n => decide (1 < n)) _
     [{ resource := some 10, busy := true, released := false }]
     [{ resource := some 30, busy := false, released := false }]
     { resource := some 20, busy := false, released := false }
     rfl (by decide) (by decide) (by decide) (by decide)⟩

/-! ### C3: the safety floor -/

/-- An idle slot is not released. -/
theorem Slot.released_of_isIdle {R : Type} {sl : Slot R} (h : sl.isIdle = true) :
    sl.released = false := by
  unfold Slot.isIdle at h
  cases hr : sl.released
  · rfl
  · rw [hr] at h; simp at h

/-- An idle slot is not busy. -/
theorem Slot.busy_of_isIdle {R : Type} {sl : Slot R} (h : sl.isIdle = true) :
    sl.busy = false := by
  unfold Slot.isIdle at h
  cases hb : sl.busy
  · rfl
  · rw [hb] at h; simp at h

/-- With the safety floor reached, the release loop changes nothing and logs
nothing. -/
theorem releaseLoop_floor {R : Type} {active : Nat} (hle : active ≤ 1) :
    ∀ (l : List (Slot R)) (i : Nat), releaseLoop active i l = (l, []) := by
  intro l
  induction l with
  | nil => intro i; rfl
  | cons sl rest ih =>
    intro i
    by_cases h : sl.isIdle = true
    · simp [releaseLoop, h, hle]
    · simp only [Bool.not_eq_true] at h
      simp [releaseLoop, h, ih (i + 1)]

/-- The release loop tears down at most one slot. -/
theorem releaseLoop_active_ge {R : Type} (active : Nat) :
    ∀ (l : List (Slot R)) (i : Nat),
      activeCountL l ≤ activeCountL (releaseLoop active i l).1 + 1 := by
  intro l
  induction l with
  | nil => intro i; simp [releaseLoop]
  | cons sl rest ih =>
    intro i
    by_cases h : sl.isIdle = true
    · by_cases hle : active ≤ 1
      · simp [releaseLoop, h, hle]
      · simp [releaseLoop, h, hle, activeCountL_cons, Slot.released_of_isIdle h]
        omega
    · simp only [Bool.not_eq_true] at h
      have := ih (i + 1)
      simp [releaseLoop, h, activeCountL_cons]
      cases hr : sl.released <;> simp <;> omega

/-- The recovery loop never decreases the active count. -/
theorem recoverLoop_active_ge {R : Type} (f : Nat → Option R) :
    ∀ (l : List (Slot R)) (i : Nat),
      activeCountL l ≤ activeCountL (recoverLoop f i l).1 := by
  intro l
  induction l with
  | nil => intro i; simp [recoverLoop]
  | cons sl rest ih =>
    intro i
    have := ih (i + 1)
    by_cases h : sl.released = true
    · cases hf : f i <;>
        simp [recoverLoop, h, hf, activeCountL_cons] <;> omega
    · simp only [Bool.not_eq_true] at h
      simp [recoverLoop, h, activeCountL_cons]
      omega

/-- The recovery pass never decreases the active count. -/
theorem maybeRecover_active_ge {R : Type} (p : Params R) (s : PoolState R) :
    activeCountL s.slots ≤ activeCountL (maybeRecover p s).slots := by
  unfold maybeRecover
  cases p.can_restore with
  | none => exact Nat.le_refl _
  | some pred =>
    by_cases h : pred (activeCountL s.slots) = true
    · simp only [h, if_true]
      exact recoverLoop_active_ge p.restore_func s.slots 0
    · simp only [h, if_false]
      exact Nat.le_refl _

/-- With the safety floor reached, the scan preserves the active count. -/
theorem scanLoop_active_floor {R : Type} (sr : Option (Nat → Bool)) {active : Nat}
    (hle : active ≤ 1) :
    ∀ (l : List (Slot R)) (i : Nat),
      activeCountL (scanLoop sr active i l).2.1 = activeCountL l := by
  intro l
  induction l with
  | nil => intro i; simp [scanLoop]
  | cons sl rest ih =>
    intro i
    by_cases h : sl.isIdle = true
    · cases sr with
      | none => simp [scanLoop, h, activeCountL_busy_irrel]
      | some pred =>
        by_cases hp : pred active = true
        · simp [scanLoop, h, hp, releaseLoop_floor hle]
        · simp [scanLoop, h, hp, activeCountL_busy_irrel]
    · simp only [Bool.not_eq_true] at h
      simp [scanLoop, h, activeCountL_cons, ih (i + 1)]

/-- The scan tears down at most one slot. -/
theorem scanLoop_active_ge {R : Type} (sr : Option (Nat → Bool)) (active : Nat) :
    ∀ (l : List (Slot R)) (i : Nat),
      activeCountL l ≤ activeCountL (scanLoop sr active i l).2.1 + 1 := by
  intro l
  induction l with
  | nil => intro i; simp [scanLoop]
  | cons sl rest ih =>
    intro i
    by_cases h : sl.isIdle = true
    · cases sr with
      | none => simp [scanLoop, h, activeCountL_busy_irrel]
      | some pred =>
        by_cases hp : pred active = true
        · simpa [scanLoop, h, hp] using releaseLoop_active_ge active (sl :: rest) i
        · simp [scanLoop, h, hp, activeCountL_busy_irrel]
    · simp only [Bool.not_eq_true] at h
      have := ih (i + 1)
      simp [scanLoop, h, activeCountL_cons]
      cases hr : sl.released <;> simp <;> omega

/-- A full acquire call keeps the active count at or above one. -/
theorem acquire_active_floor {R : Type} (p : Params R) (s : PoolState R)
    (h : 1 ≤ activeCountL s.slots) :
    1 ≤ activeCountL (acquire p s).2.slots := by
  have h1 : 1 ≤ activeCountL (maybeRecover p s).slots :=
    Nat.le_trans h (maybeRecover_active_ge p s)
  show 1 ≤ activeCountL (scanLoop p.should_release
    (activeCountL (maybeRecover p s).slots) 0 (maybeRecover p s).slots).2.1
  by_cases hle : activeCountL (maybeRecover p s).slots ≤ 1
  · rw [scanLoop_active_floor p.should_release hle (maybeRecover p s).slots 0]
    exact h1
  · have := scanLoop_active_ge p.should_release
      (activeCountL (maybeRecover p s).slots) (maybeRecover p s).slots 0
    omega

/-- A successful match in release's search loop only clears a busy flag, so the
active count is unchanged. -/
theorem releaseList_active {R : Type} [DecidableEq R] (h : Option R) :
    ∀ (l l' : List (Slot R)), releaseList h l = some l' →
      activeCountL l' = activeCountL l := by
  intro l
  induction l with
  | nil => intro l' hl; simp [releaseList] at hl
  | cons sl rest ih =>
    intro l' hl
    by_cases he : sl.resource = h
    · simp only [releaseList, he, if_true, Option.some.injEq] at hl
      rw [← hl, activeCountL_cons, activeCountL_cons]
    · simp only [releaseList, he, if_false, Option.map_eq_some'] at hl
      obtain ⟨a, ha, rfl⟩ := hl
      rw [activeCountL_cons, activeCountL_cons, ih a ha]

/-- A release call never changes the active count. -/
theorem release_active {R : Type} [DecidableEq R] (h : Option R) (s : PoolState R) :
    activeCountL (release h s).slots = activeCountL s.slots := by
  unfold release
  cases hr : releaseList h s.slots with
  | none => rfl
  | some l' => exact releaseList_active h s.slots l' hr

/-- Any sequence of public mutating calls keeps the active count at or above
one. -/
theorem runOps_active_floor {R : Type} [DecidableEq R] (p : Params R) :
    ∀ (ops : List (PoolOp R)) (s : PoolState R),
      1 ≤ activeCountL s.slots → 1 ≤ activeCountL (runOps p ops s).slots := by
  intro ops
  induction ops with
  | nil => intro s h; exact h
  | cons op rest ih =>
    intro s h
    cases op with
    | acq => exact ih _ (acquire_active_floor p s h)
    | rel hh =>
      apply ih
      show 1 ≤ activeCountL (release hh s).slots
      rw [release_active]
      exact h

/-- C3: the shrink sub-protocol aborts without releasing anything whenever the
active count is at most one, and consequently no sequence of acquire/release
calls, under any policies, ever drives the active count below one. -/
theorem C3_active_floor {R : Type} [DecidableEq R] (p : Params R) (s : PoolState R)
    (start : Nat) (ops : List (PoolOp R)) :
    (activeCountL s.slots ≤ 1 → maybeReleaseOne s start = s)
    ∧ (1 ≤ activeCountL s.slots → 1 ≤ activeCountL (runOps p ops s).slots) := by
  constructor
  · intro hle
    unfold maybeReleaseOne
    rw [releaseLoop_floor hle]
    simp [List.take_append_drop]
  · exact runOps_active_floor p ops s

/-- Witness for C3: a one-slot pool is untouched by the shrink protocol, and a
three-slot pool with an always-admitting shrink predicate keeps at least one
active slot across four acquire calls and a release. -/
theorem C3_witness :
    activeCountL (initPool [some 7] : PoolState Nat).slots ≤ 1
    ∧ maybeReleaseOne (initPool [some 7] : PoolState Nat) 0 = initPool [some 7]
    ∧ 1 ≤ activeCountL (runOps scenParams
        [PoolOp.acq, PoolOp.acq, PoolOp.acq, PoolOp.rel (some 10), PoolOp.acq]
        pool3).slots :=
  ⟨by decide,
   (C3_active_floor scenParams (initPool [some 7]) 0 []).1 (by decide),
   (C3_active_floor scenParams pool3 0
     [PoolOp.acq, PoolOp.acq, PoolOp.acq, PoolOp.rel (some 10), PoolOp.acq]).2
     (by decide)⟩

/-! ### C4: exhausting a fresh pool with no policies -/

/-- Fresh slots: resource installed, neither busy nor released. -/
def freshSlots {R : Type} (rs : List R) : List (Slot R) :=
  rs.map (fun r => { resource := some r, busy := false, released := false })

/-- Claimed slots: resource installed, busy, not released. -/
def busySlots {R : Type} (rs : List R) : List (Slot R) :=
  rs.map (fun r => { resource := some r, busy := true, released := false })

/-- A pool built from owned resources starts with every slot fresh. -/
theorem initPool_map_some {R : Type} (rs : List R) :
    initPool (rs.map some) = ({ slots := freshSlots rs, log := [] } : PoolState R) := by
  unfold initPool freshSlots
  rw [List.map_map]
  rfl

theorem busySlots_append {R : Type} (a b : List R) :
    busySlots (a ++ b) = busySlots a ++ busySlots b := by
  unfold busySlots
  exact List.map_append _ a b

theorem busySlots_not_idle {R : Type} (rs : List R) :
    ∀ x ∈ busySlots rs, x.isIdle = false := by
  intro x hx
  obtain ⟨r, _, rfl⟩ := List.mem_map.mp hx
  rfl

/-- A scan over a table with no idle slot returns nothing and changes
nothing. -/
theorem scanLoop_no_idle {R : Type} (sr : Option (Nat → Bool)) (active : Nat) :
    ∀ (l : List (Slot R)) (i : Nat), (∀ x ∈ l, x.isIdle = false) →
      scanLoop sr active i l = (none, l, []) := by
  intro l
  induction l with
  | nil => intro i _; rfl
  | cons sl rest ih =>
    intro i h
    have hs : sl.isIdle = false := h sl (List.mem_cons_self sl rest)
    simp [scanLoop, hs, ih (i + 1) (fun x hx => h x (List.mem_cons_of_mem sl hx))]

/-- An acquire call on an exhausted pool (no restore policy, no idle slot)
returns a null pointer and leaves the state unchanged. -/
theorem acquire_exhausted {R : Type} (p : Params R) (s : PoolState R)
    (hcr : p.can_restore = none) (h : ∀ x ∈ s.slots, x.isIdle = false) :
    acquire p s = (none, s) := by
  unfold acquire scanPart
  rw [maybeRecover_none p s hcr]
  rw [scanLoop_no_idle p.should_release _ s.slots 0 h]
  simp

/-- With no release-admission predicate, the scan claims the first idle slot
and returns its resource. -/
theorem scanLoop_claim {R : Type} (active : Nat) (b : List (Slot R)) (sl : Slot R)
    (hsl : sl.isIdle = true) :
    ∀ (a : List (Slot R)) (i : Nat), (∀ x ∈ a, x.isIdle = false) →
      scanLoop none active i (a ++ sl :: b)
        = (sl.resource, a ++ { sl with busy := true } :: b, []) := by
  intro a
  induction a with
  | nil => intro i _; simp [scanLoop, hsl]
  | cons x xs ih =>
    intro i hx
    have hxi : x.isIdle = false := hx x (List.mem_cons_self x xs)
    simp [scanLoop, hxi, ih (i + 1) (fun y hy => hx y (List.mem_cons_of_mem x hy))]

/-- With no policies, one acquire call on a pool whose first slots are claimed
and the rest fresh claims the first fresh slot and returns its resource. -/
theorem acquire_noPolicy_step {R : Type} (p : Params R)
    (hcr : p.can_restore = none) (hsr : p.should_release = none)
    (a b : List R) (r : R) (lg : List String) :
    acquire p { slots := busySlots a ++ freshSlots (r :: b), log := lg }
      = (some r, { slots := busySlots (a ++ [r]) ++ freshSlots b, log := lg }) := by
  unfold acquire scanPart
  rw [maybeRecover_none p _ hcr, hsr]
  have hfr : freshSlots (r :: b)
      = { resource := some r, busy := false, released := false } :: freshSlots b := rfl
  rw [hfr,
    scanLoop_claim _ (freshSlots b) { resource := some r, busy := false, released := false }
      rfl (busySlots a) 0 (busySlots_not_idle a)]
  rw [busySlots_append]
  simp [List.append_assoc]
  rfl

/-- With no policies, as many acquire calls as there are fresh slots return
exactly their resources, in slot order, and leave every slot claimed. -/
theorem acquireMany_noPolicy {R : Type} (p : Params R)
    (hcr : p.can_restore = none) (hsr : p.should_release = none) :
    ∀ (b a : List R) (lg : List String),
      acquireMany p b.length { slots := busySlots a ++ freshSlots b, log := lg }
        = (b.map some, { slots := busySlots (a ++ b), log := lg }) := by
  intro b
  induction b with
  | nil =>
    intro a lg
    simp [acquireMany, freshSlots, busySlots]
  | cons r b ih =>
    intro a lg
    have hstep := acquire_noPolicy_step p hcr hsr a b r lg
    have hrest := ih (a ++ [r]) lg
    simp only [List.length_cons, acquireMany, hstep, hrest, List.map_cons,
      List.append_assoc, List.singleton_append]

/-- A fully claimed table has no idle slot. -/
theorem idleCountL_busySlots {R : Type} (rs : List R) :
    idleCountL (busySlots rs) = 0 := by
  induction rs with
  | nil => rfl
  | cons r rest ih =>
    have h : ({ resource := some r, busy := true, released := false } : Slot R).isIdle
        = false := rfl
    unfold idleCountL busySlots at ih ⊢
    rw [List.map_cons, List.filter_cons, h]
    simpa using ih

/-- C4: on a freshly constructed pool of `N` pairwise-distinct owned resources
with no policies configured, the first `N` acquire calls return exactly those
`N` resources — pairwise-distinct non-null handles, in slot order — leaving
`idleCount() = 0`, and the `(N+1)`-th acquire returns a null result and changes
nothing, with `idleCount()` still `0`. -/
theorem C4_fresh_pool_exhaustion {R : Type} (p : Params R) (rs : List R)
    (hcr : p.can_restore = none) (hsr : p.should_release = none) (hnd : rs.Nodup) :
    (acquireMany p rs.length (initPool (rs.map some))).1 = rs.map some
    ∧ (acquireMany p rs.length (initPool (rs.map some))).1.Nodup
    ∧ (∀ h ∈ (acquireMany p rs.length (initPool (rs.map some))).1, h ≠ none)
    ∧ idleCountL (acquireMany p rs.length (initPool (rs.map some))).2.slots = 0
    ∧ acquire p (acquireMany p rs.length (initPool (rs.map some))).2
        = (none, (acquireMany p rs.length (initPool (rs.map some))).2)
    ∧ idleCountL (acquire p (acquireMany p rs.length (initPool (rs.map some))).2).2.slots
        = 0 := by
  have h2 : acquireMany p rs.length (initPool (rs.map some))
      = (rs.map some, { slots := busySlots rs, log := [] }) := by
    rw [initPool_map_some]
    have := acquireMany_noPolicy p hcr hsr rs [] []
    simpa [busySlots, List.map_nil] using this
  have hex : acquire p (acquireMany p rs.length (initPool (rs.map some))).2
      = (none, (acquireMany p rs.length (initPool (rs.map some))).2) := by
    rw [h2]
    exact acquire_exhausted p _ hcr (busySlots_not_idle rs)
  refine ⟨by rw [h2], ?_, ?_, ?_, hex, ?_⟩
  · rw [h2]
    exact hnd.map (Option.some_injective R)
  · rw [h2]
    intro h hh
    obtain ⟨r, _, rfl⟩ := List.mem_map.mp hh
    simp
  · rw [h2]
    exact idleCountL_busySlots rs
  · rw [hex, h2]
    exact idleCountL_busySlots rs

/-- Witness for C4: three distinct resources, three acquires, in order. -/
theorem C4_witness :
    ([10, 20, 30] : List Nat).Nodup
    ∧ (acquireMany noPolicy 3 (initPool [some 10, some 20, some 30])).1
        = [some 10, some 20, some 30] :=
  ⟨by decide, (C4_fresh_pool_exhaustion noPolicy [10, 20, 30] rfl rfl (by decide)).1⟩

/-! ### C5: the restore pass -/

/-- Elementwise description of the recovery loop's slot table: slot `j` is
restored exactly when it was released and the restore action at its absolute
index yields a resource; otherwise it is untouched. -/
theorem recoverLoop_get {R : Type} (f : Nat → Option R) :
    ∀ (l : List (Slot R)) (i j : Nat),
      ((recoverLoop f i l).1)[j]? = (l[j]?).map (fun sl =>
        if sl.released then
          match f (i + j) with
          | some r => { resource := some r, busy := false, released := false }
          | none => sl
        else sl) := by
  intro l
  induction l with
  | nil => intro i j; simp [recoverLoop]
  | cons sl rest ih =>
    intro i j
    cases j with
    | zero =>
      by_cases h : sl.released = true
      · cases hf : f i <;> simp [recoverLoop, h, hf]
      · simp only [Bool.not_eq_true] at h
        simp [recoverLoop, h]
    | succ j =>
      have harith : i + 1 + j = i + (j + 1) := by omega
      have ihh := ih (i + 1) j
      rw [harith] at ihh
      by_cases h : sl.released = true
      · cases hf : f i <;> simp [recoverLoop, h, hf, ihh]
      · simp only [Bool.not_eq_true] at h
        simp [recoverLoop, h, ihh]

/-- A successful restoration is logged. -/
theorem recoverLoop_log_restored {R : Type} (f : Nat → Option R) :
    ∀ (l : List (Slot R)) (i j : Nat) (sl : Slot R) (r : R),
      l[j]? = some sl → sl.released = true → f (i + j) = some r →
      ("Restored resource[" ++ toString (i + j) ++ "]") ∈ (recoverLoop f i l).2 := by
  intro l
  induction l with
  | nil => intro i j sl r hj; simp at hj
  | cons x rest ih =>
    intro i j sl r hj hrel hf
    cases j with
    | zero =>
      simp only [List.getElem?_cons_zero, Option.some.injEq] at hj
      subst hj
      rw [Nat.add_zero] at hf ⊢
      simp [recoverLoop, hrel, hf]
    | succ j =>
      simp only [List.getElem?_cons_succ] at hj
      have harith : i + (j + 1) = i + 1 + j := by omega
      rw [harith] at hf ⊢
      have hmem := ih (i + 1) j sl r hj hrel hf
      by_cases h : x.released = true
      · cases hfx : f i <;> simp [recoverLoop, h, hfx] <;>
          exact Or.inr hmem
      · simp only [Bool.not_eq_true] at h
        simpa [recoverLoop, h] using hmem

/-- A failed restoration is logged. -/
theorem recoverLoop_log_failed {R : Type} (f : Nat → Option R) :
    ∀ (l : List (Slot R)) (i j : Nat) (sl : Slot R),
      l[j]? = some sl → sl.released = true → f (i + j) = none →
      ("Failed to restore resource[" ++ toString (i + j) ++ "]")
        ∈ (recoverLoop f i l).2 := by
  intro l
  induction l with
  | nil => intro i j sl hj; simp at hj
  | cons x rest ih =>
    intro i j sl hj hrel hf
    cases j with
    | zero =>
      simp only [List.getElem?_cons_zero, Option.some.injEq] at hj
      subst hj
      rw [Nat.add_zero] at hf ⊢
      simp [recoverLoop, hrel, hf]
    | succ j =>
      simp only [List.getElem?_cons_succ] at hj
      have harith : i + (j + 1) = i + 1 + j := by omega
      rw [harith] at hf ⊢
      have hmem := ih (i + 1) j sl hj hrel hf
      by_cases h : x.released = true
      · cases hfx : f i <;> simp [recoverLoop, h, hfx] <;>
          exact Or.inr hmem
      · simp only [Bool.not_eq_true] at h
        simpa [recoverLoop, h] using hmem

/-- C5: the restore pass runs at the start of every acquire call, before the
scan; it is gated once, by the restore-admission predicate evaluated on the
active count before any restoration in the pass; when admitted, every released
slot is offered to the restore action within the single pass — a slot whose
restore action yields a resource becomes idle with that resource installed, a
slot whose restore action yields nothing stays exactly as it was (released)
with a failure diagnostic logged — and non-released slots are untouched. -/
theorem C5_restore_pass {R : Type} (p : Params R) (pred : Nat → Bool)
    (s : PoolState R) (j : Nat) (sl : Slot R)
    (hp : p.can_restore = some pred) (hj : s.slots[j]? = some sl) :
    (∀ s₂ : PoolState R, acquire p s₂ = scanPart p (maybeRecover p s₂))
    ∧ (pred (activeCountL s.slots) = false → maybeRecover p s = s)
    ∧ (pred (activeCountL s.slots) = true →
        (sl.released = false → (maybeRecover p s).slots[j]? = some sl)
        ∧ (sl.released = true →
            (∀ r, p.restore_func j = some r →
              (maybeRecover p s).slots[j]?
                  = some { resource := some r, busy := false, released := false }
                ∧ ("Restored resource[" ++ toString j ++ "]") ∈ (maybeRecover p s).log)
            ∧ (p.restore_func j = none →
              (maybeRecover p s).slots[j]? = some sl
                ∧ ("Failed to restore resource[" ++ toString j ++ "]")
                    ∈ (maybeRecover p s).log))) := by
  refine ⟨fun s₂ => rfl, ?_, ?_⟩
  · intro hfalse
    simp [maybeRecover, hp, hfalse]
  · intro htrue
    have hm : maybeRecover p s
        = { slots := (recoverLoop p.restore_func 0 s.slots).1,
            log := s.log ++ (recoverLoop p.restore_func 0 s.slots).2 } := by
      simp [maybeRecover, hp, htrue]
    refine ⟨?_, ?_⟩
    · intro hrel
      rw [hm]
      show ((recoverLoop p.restore_func 0 s.slots).1)[j]? = some sl
      rw [recoverLoop_get p.restore_func s.slots 0 j, hj]
      simp [hrel]
    · intro hrel
      refine ⟨?_, ?_⟩
      · intro r hr
        refine ⟨?_, ?_⟩
        · rw [hm]
          show ((recoverLoop p.restore_func 0 s.slots).1)[j]? = some _
          rw [recoverLoop_get p.restore_func s.slots 0 j, hj]
          simp only [Option.map_some', hrel, if_true, Nat.zero_add, hr]
        · rw [hm]
          refine List.mem_append_right _ ?_
          have := recoverLoop_log_restored p.restore_func s.slots 0 j sl r hj hrel
            (by rw [Nat.zero_add]; exact hr)
          simpa using this
      · intro hr
        refine ⟨?_, ?_⟩
        · rw [hm]
          show ((recoverLoop p.restore_func 0 s.slots).1)[j]? = some sl
          rw [recoverLoop_get p.restore_func s.slots 0 j, hj]
          simp only [Option.map_some', hrel, if_true, Nat.zero_add, hr]
        · rw [hm]
          refine List.mem_append_right _ ?_
          have := recoverLoop_log_failed p.restore_func s.slots 0 j sl hj hrel
            (by rw [Nat.zero_add]; exact hr)
          simpa using this

/-- Restore-policy configuration used by the C5 witness: always admit, restore
index 0 only. -/
def growParams : Params Nat :=
  { can_restore := some (fun _ => true),
    should_release := none,
    restore_func := fun i => if i = 0 then some 7 else none,
    has_release_func := true }

/-- A pool whose slots 0 and 1 are released and slot 2 is idle. -/
def holePool : PoolState Nat :=
  { slots := [{ resource := none, busy := true, released := true },
              { resource := none, busy := false, released := true },
              { resource := some 9, busy := false, released := false }],
    log := [] }

/-- Witness for C5: one restore pass restores slot 0 (installing the new
resource), fails on slot 1 with a logged diagnostic, and leaves slot 2 as it
was. -/
theorem C5_witness :
    (maybeRecover growParams holePool).slots[0]?
        = some { resource := some 7, busy := false, released := false }
    ∧ ("Failed to restore resource[1]") ∈ (maybeRecover growParams holePool).log
    ∧ (maybeRecover growParams holePool).slots[2]?
        = some { resource := some 9, busy := false, released := false } :=
  ⟨((((C5_restore_pass growParams (fun _ => true) holePool 0
        { resource := none, busy := true, released := true } rfl (by decide)).2.2
        (by decide)).2 (by decide)).1 7 (by decide)).1,
   ((((C5_restore_pass growParams (fun _ => true) holePool 1
        { resource := none, busy := false, released := true } rfl (by decide)).2.2
        (by decide)).2 (by decide)).2 (by decide)).2,
   (((C5_restore_pass growParams (fun _ => true) holePool 2
        { resource := some 9, busy := false, released := false } rfl (by decide)).2.2
        (by decide)).1 (by decide))⟩

/-! ### C6: releasing an unknown handle -/

/-- When no slot's current resource matches the handle, the search loop
fails. -/
theorem releaseList_none {R : Type} [DecidableEq R] (h : Option R) :
    ∀ l : List (Slot R), (∀ sl ∈ l, sl.resource ≠ h) → releaseList h l = none := by
  intro l
  induction l with
  | nil => intro _; rfl
  | cons sl rest ih =>
    intro hl
    have h1 : sl.resource ≠ h := hl sl (List.mem_cons_self sl rest)
    simp [releaseList, h1, ih (fun x hx => hl x (List.mem_cons_of_mem sl hx))]

/-- C6: releasing a handle that matches no slot's current resource leaves the
entire slot table unchanged (every slot's flags and resource included) and
appends exactly one diagnostic to the log; in particular `idleCount()` is
unchanged. -/
theorem C6_unknown_handle {R : Type} [DecidableEq R] (h : Option R) (s : PoolState R)
    (hu : ∀ sl ∈ s.slots, sl.resource ≠ h) :
    release h s
        = { slots := s.slots, log := s.log ++ ["Tried to release unknown resource."] }
    ∧ idleCountL (release h s).slots = idleCountL s.slots := by
  have hr :
      release h s
        = { slots := s.slots, log := s.log ++ ["Tried to release unknown resource."] } := by
    unfold release
    rw [releaseList_none h s.slots hu]
  exact ⟨hr, by rw [hr]⟩

/-- Witness for C6: handle `99` is owned by no slot of the fresh pool. -/
theorem C6_witness :
    (∀ sl ∈ pool3.slots, sl.resource ≠ some 99)
    ∧ release (some 99) pool3
        = { slots := pool3.slots,
            log := pool3.log ++ ["Tried to release unknown resource."] }
    ∧ idleCountL (release (some 99) pool3).slots = idleCountL pool3.slots :=
  ⟨by decide, (C6_unknown_handle (some 99) pool3 (by decide)).1,
   (C6_unknown_handle (some 99) pool3 (by decide)).2⟩

/-! ### C7: the released/resource invariant -/

/-- The invariant of one slot: a released slot owns no resource, a non-released
slot owns one. -/
def SlotInv {R : Type} (sl : Slot R) : Prop :=
  (sl.released = true → sl.resource = none)
  ∧ (sl.released = false → sl.resource ≠ none)

/-- The pool invariant: every slot satisfies `SlotInv`. -/
def PoolInv {R : Type} (s : PoolState R) : Prop :=
  ∀ sl ∈ s.slots, SlotInv sl

instance {R : Type} [DecidableEq R] (sl : Slot R) : Decidable (SlotInv sl) := by
  unfold SlotInv
  infer_instance

instance {R : Type} [DecidableEq R] (s : PoolState R) : Decidable (PoolInv s) := by
  unfold PoolInv
  infer_instance

/-- The recovery loop preserves the invariant (a restored slot owns its new
resource and is no longer released). -/
theorem recoverLoop_inv {R : Type} (f : Nat → Option R) :
    ∀ (l : List (Slot R)) (i : Nat), (∀ sl ∈ l, SlotInv sl) →
      ∀ sl ∈ (recoverLoop f i l).1, SlotInv sl := by
  intro l
  induction l with
  | nil => intro i _ sl hsl; simp [recoverLoop] at hsl
  | cons x rest ih =>
    intro i hl sl hsl
    have hx := hl x (List.mem_cons_self x rest)
    have hrest := fun y hy => hl y (List.mem_cons_of_mem x hy)
    by_cases h : x.released = true
    · cases hf : f i with
      | some r =>
        simp only [recoverLoop, h, if_true, hf, List.mem_cons] at hsl
        rcases hsl with rfl | hm
        · simp [SlotInv]
        · exact ih (i + 1) hrest sl hm
      | none =>
        simp only [recoverLoop, h, if_true, hf, List.mem_cons] at hsl
        rcases hsl with rfl | hm
        · exact hx
        · exact ih (i + 1) hrest sl hm
    · simp only [Bool.not_eq_true] at h
      simp only [recoverLoop, h, Bool.false_eq_true, if_false, List.mem_cons] at hsl
      rcases hsl with rfl | hm
      · exact hx
      · exact ih (i + 1) hrest sl hm

/-- The release loop preserves the invariant (a torn-down slot is released and
owns nothing). -/
theorem releaseLoop_inv {R : Type} (active : Nat) :
    ∀ (l : List (Slot R)) (i : Nat), (∀ sl ∈ l, SlotInv sl) →
      ∀ sl ∈ (releaseLoop active i l).1, SlotInv sl := by
  intro l
  induction l with
  | nil => intro i _ sl hsl; simp [releaseLoop] at hsl
  | cons x rest ih =>
    intro i hl sl hsl
    have hx := hl x (List.mem_cons_self x rest)
    have hrest := fun y hy => hl y (List.mem_cons_of_mem x hy)
    by_cases h : x.isIdle = true
    · by_cases hle : active ≤ 1
      · simp only [releaseLoop, h, if_true, hle] at hsl
        exact hl sl hsl
      · simp only [releaseLoop, h, if_true, hle, if_false, List.mem_cons] at hsl
        rcases hsl with rfl | hm
        · simp [SlotInv]
        · exact hrest sl hm
    · simp only [Bool.not_eq_true] at h
      simp only [releaseLoop, h, Bool.false_eq_true, if_false, List.mem_cons] at hsl
      rcases hsl with rfl | hm
      · exact hx
      · exact ih (i + 1) hrest sl hm

/-- The scan preserves the invariant (claiming only sets a busy flag). -/
theorem scanLoop_inv {R : Type} (sr : Option (Nat → Bool)) (active : Nat) :
    ∀ (l : List (Slot R)) (i : Nat), (∀ sl ∈ l, SlotInv sl) →
      ∀ sl ∈ (scanLoop sr active i l).2.1, SlotInv sl := by
  intro l
  induction l with
  | nil => intro i _ sl hsl; simp [scanLoop] at hsl
  | cons x rest ih =>
    intro i hl sl hsl
    have hx := hl x (List.mem_cons_self x rest)
    have hrest := fun y hy => hl y (List.mem_cons_of_mem x hy)
    by_cases h : x.isIdle = true
    · cases sr with
      | none =>
        simp only [scanLoop, h, if_true, List.mem_cons] at hsl
        rcases hsl with rfl | hm
        · exact hx
        · exact hrest sl hm
      | some pred =>
        by_cases hp : pred active = true
        · simp only [scanLoop, h, if_true, hp] at hsl
          exact releaseLoop_inv active (x :: rest) i hl sl hsl
        · simp only [scanLoop, h, if_true, hp, Bool.false_eq_true, if_false,
            List.mem_cons] at hsl
          rcases hsl with rfl | hm
          · exact hx
          · exact hrest sl hm
    · simp only [Bool.not_eq_true] at h
      simp only [scanLoop, h, Bool.false_eq_true, if_false, List.mem_cons] at hsl
      rcases hsl with rfl | hm
      · exact hx
      · exact ih (i + 1) hrest sl hm

/-- The release search loop preserves the invariant (it only clears a busy
flag). -/
theorem releaseList_inv {R : Type} [DecidableEq R] (h : Option R) :
    ∀ (l l' : List (Slot R)), releaseList h l = some l' →
      (∀ sl ∈ l, SlotInv sl) → ∀ sl ∈ l', SlotInv sl := by
  intro l
  induction l with
  | nil => intro l' hl; simp [releaseList] at hl
  | cons x rest ih =>
    intro l' hl hinv sl hsl
    have hx := hinv x (List.mem_cons_self x rest)
    have hrest := fun y hy => hinv y (List.mem_cons_of_mem x hy)
    by_cases he : x.resource = h
    · simp only [releaseList, he, if_true, Option.some.injEq] at hl
      rw [← hl] at hsl
      rcases List.mem_cons.mp hsl with rfl | hm
      · constructor
        · intro hrel
          rw [← he]
          exact hx.1 hrel
        · intro hrel
          rw [← he]
          exact hx.2 hrel
      · exact hrest sl hm
    · simp only [releaseList, he, if_false, Option.map_eq_some'] at hl
      obtain ⟨a, ha, rfl⟩ := hl
      rcases List.mem_cons.mp hsl with rfl | hm
      · exact hx
      · exact ih a ha hrest sl hm

/-- C7: the released/resource invariant holds at construction from an
initializer producing only owned resources, and is preserved by the recovery
pass, the shrink sub-protocol, every acquire call and every release call. -/
theorem C7_resource_invariant {R : Type} [DecidableEq R] :
    (∀ rs : List R, PoolInv (initPool (rs.map some)))
    ∧ (∀ (p : Params R) (s : PoolState R), PoolInv s → PoolInv (maybeRecover p s))
    ∧ (∀ (s : PoolState R) (start : Nat), PoolInv s → PoolInv (maybeReleaseOne s start))
    ∧ (∀ (p : Params R) (s : PoolState R), PoolInv s → PoolInv (acquire p s).2)
    ∧ (∀ (h : Option R) (s : PoolState R), PoolInv s → PoolInv (release h s)) := by
  have hrecover : ∀ (p : Params R) (s : PoolState R), PoolInv s →
      PoolInv (maybeRecover p s) := by
    intro p s hs
    unfold maybeRecover
    cases p.can_restore with
    | none => exact hs
    | some pred =>
      by_cases h : pred (activeCountL s.slots) = true
      · simp only [h, if_true]
        exact recoverLoop_inv p.restore_func s.slots 0 hs
      · simp only [h, Bool.false_eq_true, if_false]
        exact hs
  refine ⟨?_, hrecover, ?_, ?_, ?_⟩
  · intro rs sl hsl
    unfold initPool at hsl
    rw [List.map_map] at hsl
    obtain ⟨r, _, rfl⟩ := List.mem_map.mp hsl
    simp [SlotInv]
  · intro s start hs sl hsl
    unfold maybeReleaseOne at hsl
    rcases List.mem_append.mp hsl with hm | hm
    · exact hs sl (List.mem_of_mem_take hm)
    · refine releaseLoop_inv _ (s.slots.drop start) start ?_ sl hm
      intro y hy
      exact hs y (List.mem_of_mem_drop hy)
  · intro p s hs
    have h1 := hrecover p s hs
    intro sl hsl
    unfold acquire scanPart at hsl
    exact scanLoop_inv p.should_release _ (maybeRecover p s).slots 0 h1 sl hsl
  · intro h s hs sl hsl
    unfold release at hsl
    cases hr : releaseList h s.slots with
    | none =>
      rw [hr] at hsl
      exact hs sl hsl
    | some l' =>
      rw [hr] at hsl
      exact releaseList_inv h s.slots l' hr hs sl hsl

/-- Witness for C7: the invariant holds on the fresh pool and survives a
shrinking acquire call. -/
theorem C7_witness :
    PoolInv pool3 ∧ PoolInv (acquire scenParams pool3).2 :=
  ⟨by decide,
   (C7_resource_invariant (R := Nat)).2.2.2.1 scenParams pool3 (by decide)⟩

/-! ### C8: the acquire/release round trip -/

/-- A successful scan with no release-admission predicate decomposes the table
at the first idle slot, which owns the returned resource and is the only
changed slot. -/
theorem scanLoop_success {R : Type} (active : Nat) :
    ∀ (l : List (Slot R)) (i : Nat) (r : R),
      (scanLoop (none : Option (Nat → Bool)) active i l).1 = some r →
      ∃ a sl b, l = a ++ sl :: b ∧ (∀ x ∈ a, x.isIdle = false) ∧ sl.isIdle = true
        ∧ sl.resource = some r
        ∧ (scanLoop (none : Option (Nat → Bool)) active i l).2.1
            = a ++ { sl with busy := true } :: b := by
  intro l
  induction l with
  | nil => intro i r hr; simp [scanLoop] at hr
  | cons x rest ih =>
    intro i r hr
    by_cases h : x.isIdle = true
    · refine ⟨[], x, rest, rfl, by simp, h, ?_, ?_⟩
      · simp only [scanLoop, h, if_true] at hr
        exact hr
      · simp [scanLoop, h]
    · simp only [Bool.not_eq_true] at h
      simp only [scanLoop, h, Bool.false_eq_true, if_false] at hr
      obtain ⟨a, sl, b, hdecomp, ha, hidle, hres, hslots⟩ := ih (i + 1) r hr
      refine ⟨x :: a, sl, b, by rw [List.cons_append, hdecomp], ?_, hidle, hres, ?_⟩
      · intro y hy
        rcases List.mem_cons.mp hy with rfl | hm
        · exact h
        · exact ha y hm
      · simp only [scanLoop, h, Bool.false_eq_true, if_false, List.cons_append]
        rw [hslots]

/-- When a prefix holds no matching slot and the next slot matches, release's
search loop clears exactly that slot's busy flag. -/
theorem releaseList_found {R : Type} [DecidableEq R] (h : Option R) (sl : Slot R)
    (hsl : sl.resource = h) (b : List (Slot R)) :
    ∀ a : List (Slot R), (∀ x ∈ a, x.resource ≠ h) →
      releaseList h (a ++ sl :: b) = some (a ++ { sl with busy := false } :: b) := by
  intro a
  induction a with
  | nil =>
    intro _
    simp [releaseList, hsl]
  | cons x xs ih =>
    intro hx
    have h1 : x.resource ≠ h := hx x (List.mem_cons_self x xs)
    simp [releaseList, h1, ih (fun y hy => hx y (List.mem_cons_of_mem x hy))]

/-- If at most one slot owns resource `r` and the slot after prefix `a` owns
it, no slot of `a` owns it. -/
theorem unique_owner_before {R : Type} [DecidableEq R] (r : R) (a b : List (Slot R))
    (sl : Slot R) (hsl : sl.resource = some r)
    (huniq : ((a ++ sl :: b).filter (fun x => decide (x.resource = some r))).length ≤ 1) :
    ∀ x ∈ a, x.resource ≠ some r := by
  intro x hx hcon
  have hx1 : x ∈ a.filter (fun y => decide (y.resource = some r)) :=
    List.mem_filter.mpr ⟨hx, by simp [hcon]⟩
  have hla : 0 < (a.filter (fun y => decide (y.resource = some r))).length :=
    List.length_pos_of_mem hx1
  rw [List.filter_append, List.length_append, List.filter_cons, hsl] at huniq
  simp at huniq
  omega

/-- C8: with no policies configured, a successful acquire followed by a
release of the returned handle — which, by pointer identity, is owned by at
most one slot — restores the slot table, and hence `idleCount()`, to its
pre-acquire state. -/
theorem C8_round_trip {R : Type} [DecidableEq R] (p : Params R) (s : PoolState R)
    (r : R)
    (hcr : p.can_restore = none) (hsr : p.should_release = none)
    (hres : (acquire p s).1 = some r)
    (huniq : (s.slots.filter (fun x => decide (x.resource = some r))).length ≤ 1) :
    (release (some r) (acquire p s).2).slots = s.slots
    ∧ idleCountL (release (some r) (acquire p s).2).slots = idleCountL s.slots := by
  have hrec : maybeRecover p s = s := maybeRecover_none p s hcr
  have hacq : acquire p s
      = ((scanLoop (none : Option (Nat → Bool)) (activeCountL s.slots) 0 s.slots).1,
         { slots := (scanLoop (none : Option (Nat → Bool))
              (activeCountL s.slots) 0 s.slots).2.1,
           log := s.log ++ (scanLoop (none : Option (Nat → Bool))
              (activeCountL s.slots) 0 s.slots).2.2 }) := by
    unfold acquire scanPart
    rw [hrec, hsr]
  have hres2 : (scanLoop (none : Option (Nat → Bool))
      (activeCountL s.slots) 0 s.slots).1 = some r := by
    rw [hacq] at hres
    exact hres
  obtain ⟨a, sl, b, hdec, _, hidle, hslres, hslots⟩ :=
    scanLoop_success (activeCountL s.slots) s.slots 0 r hres2
  have hforall : ∀ x ∈ a, x.resource ≠ some r :=
    unique_owner_before r a b sl hslres (by rw [← hdec]; exact huniq)
  have hstate : (acquire p s).2.slots = a ++ { sl with busy := true } :: b := by
    rw [hacq]
    exact hslots
  have h2 : ({ { sl with busy := true } with busy := false } : Slot R) = sl := by
    cases sl with
    | mk res bz rel =>
      have hb : bz = false := Slot.busy_of_isIdle hidle
      subst hb
      rfl
  have hfound := releaseList_found (some r) ({ sl with busy := true }) hslres b a hforall
  have hrelease : release (some r) (acquire p s).2
      = { slots := a ++ sl :: b, log := (acquire p s).2.log } := by
    unfold release
    rw [hstate, hfound, h2]
  rw [hrelease]
  exact ⟨hdec.symm, by rw [← hdec]⟩

/-- Witness for C8: acquire the first resource of the fresh pool, release it,
and the table is back where it started. -/
theorem C8_witness :
    (acquire noPolicy pool3).1 = some 10
    ∧ (release (some 10) (acquire noPolicy pool3).2).slots = pool3.slots
    ∧ idleCountL (release (some 10) (acquire noPolicy pool3).2).slots
        = idleCountL pool3.slots :=
  ⟨by decide,
   (C8_round_trip noPolicy pool3 10 rfl rfl (by decide) (by decide)).1,
   (C8_round_trip noPolicy pool3 10 rfl rfl (by decide) (by decide)).2⟩

/-! ### C9: destructor teardown -/

/-- Every call the destructor makes to the release action is on a non-released
slot's resource, at that slot's own index, and only when an action is
configured. -/
theorem destructorCallsAux_mem {R : Type} (hasRel : Bool) :
    ∀ (l : List (Slot R)) (base k : Nat) (x : Option R),
      (k, x) ∈ destructorCallsAux hasRel base l →
      hasRel = true ∧ ∃ j sl, l[j]? = some sl ∧ k = base + j ∧ sl.released = false
        ∧ x = sl.resource := by
  intro l
  induction l with
  | nil => intro base k x hk; simp [destructorCallsAux] at hk
  | cons sl rest ih =>
    intro base k x hk
    by_cases h : (!sl.released && hasRel) = true
    · obtain ⟨h1, h2⟩ := Bool.and_eq_true_iff.mp h
      simp only [Bool.not_eq_true'] at h1
      simp only [destructorCallsAux, h, if_true, List.mem_cons, Prod.mk.injEq] at hk
      rcases hk with ⟨hk1, hk2⟩ | hm
      · exact ⟨h2, 0, sl, by simp, by omega, h1, hk2⟩
      · obtain ⟨hh, j, sl', hj, hkk, hrel, hx⟩ := ih (base + 1) k x hm
        exact ⟨hh, j + 1, sl', by simpa using hj, by omega, hrel, hx⟩
    · simp only [Bool.not_eq_true] at h
      simp only [destructorCallsAux, h, Bool.false_eq_true, if_false] at hk
      obtain ⟨hh, j, sl', hj, hkk, hrel, hx⟩ := ih (base + 1) k x hk
      exact ⟨hh, j + 1, sl', by simpa using hj, by omega, hrel, hx⟩

/-- Conversely, when the release action is configured, every non-released slot
gets exactly its call. -/
theorem destructorCallsAux_mem_of {R : Type} :
    ∀ (l : List (Slot R)) (base j : Nat) (sl : Slot R),
      l[j]? = some sl → sl.released = false →
      (base + j, sl.resource) ∈ destructorCallsAux true base l := by
  intro l
  induction l with
  | nil => intro base j sl hj; simp at hj
  | cons x rest ih =>
    intro base j sl hj hrel
    cases j with
    | zero =>
      simp only [List.getElem?_cons_zero, Option.some.injEq] at hj
      subst hj
      rw [Nat.add_zero]
      simp [destructorCallsAux, hrel]
    | succ j =>
      simp only [List.getElem?_cons_succ] at hj
      have hmem := ih (base + 1) j sl hj hrel
      have harith : base + (j + 1) = base + 1 + j := by omega
      rw [harith]
      by_cases h : (!x.released && true) = true
      · simp only [destructorCallsAux, h, if_true]
        exact List.mem_cons_of_mem _ hmem
      · simp only [Bool.not_eq_true] at h
        simp only [destructorCallsAux, h, Bool.false_eq_true, if_false]
        exact hmem

/-- Elementwise description of the teardown loop's slot table. -/
theorem destructSlots_get {R : Type} (l : List (Slot R)) (i : Nat) :
    (destructSlots l)[i]? = (l[i]?).map (fun sl =>
      if sl.released then sl else { sl with resource := none }) := by
  unfold destructSlots
  rw [List.getElem?_map]

/-- C9: at pool destruction, every slot that is not released — including slots
whose busy flag is set — has its resource passed to the release action (when
one is configured) and then dropped; released slots are skipped: no call is
made for their index and the teardown loop leaves them untouched. -/
theorem C9_destructor {R : Type} (hasRel : Bool) (slots : List (Slot R)) (i : Nat)
    (sl : Slot R) (hi : slots[i]? = some sl) :
    (sl.released = false →
        (hasRel = true → (i, sl.resource) ∈ destructorCalls hasRel slots)
        ∧ (destructSlots slots)[i]? = some { sl with resource := none })
    ∧ (sl.released = true →
        (∀ x, (i, x) ∉ destructorCalls hasRel slots)
        ∧ (destructSlots slots)[i]? = some sl) := by
  constructor
  · intro hrel
    constructor
    · intro hhr
      subst hhr
      have := destructorCallsAux_mem_of slots 0 i sl hi hrel
      simpa [destructorCalls] using this
    · rw [destructSlots_get, hi]
      simp [hrel]
  · intro hrel
    constructor
    · intro x hx
      obtain ⟨_, j, sl', hj, hij, hrel', _⟩ :=
        destructorCallsAux_mem hasRel slots 0 i x hx
      have hji : j = i := by omega
      subst hji
      rw [hi, Option.some.injEq] at hj
      rw [← hj, hrel] at hrel'
      exact Bool.true_eq_false.mp hrel'
    · rw [destructSlots_get, hi]
      simp [hrel]

/-- Witness for C9: a busy owned slot gets its call and is dropped; a released
slot gets no call and is untouched. -/
theorem C9_witness :
    ((0, some 5) ∈ destructorCalls true
        ([{ resource := some 5, busy := true, released := false },
          { resource := none, busy := false, released := true }] : List (Slot Nat)))
    ∧ (destructSlots
        ([{ resource := some 5, busy := true, released := false },
          { resource := none, busy := false, released := true }] : List (Slot Nat)))[0]?
        = some { resource := none, busy := true, released := false }
    ∧ (∀ x, ((1 : Nat), x) ∉ destructorCalls true
        ([{ resource := some 5, busy := true, released := false },
          { resource := none, busy := false, released := true }] : List (Slot Nat)))
    ∧ (destructSlots
        ([{ resource := some 5, busy := true, released := false },
          { resource := none, busy := false, released := true }] : List (Slot Nat)))[1]?
        = some { resource := none, busy := false, released := true } :=
  ⟨((C9_destructor true _ 0 { resource := some 5, busy := true, released := false }
      rfl).1 rfl).1 rfl,
   ((C9_destructor true _ 0 { resource := some 5, busy := true, released := false }
      rfl).1 rfl).2,
   ((C9_destructor true _ 1 { resource := none, busy := false, released := true }
      rfl).2 rfl).1,
   ((C9_destructor true _ 1 { resource := none, busy := false, released := true }
      rfl).2 rfl).2⟩

/-! ### C10: releasing a null handle -/

/-- C10: under the released/resource invariant, when at least one slot is
released, `release(nullptr)` matches the first released slot — whose owned
resource is absent — clears that slot's busy flag and logs no diagnostic; only
when no slot is released does `release(nullptr)` take the logged
unknown-handle path. -/
theorem C10_null_handle {R : Type} [DecidableEq R] (s : PoolState R)
    (hinv : PoolInv s) :
    (∀ (a b : List (Slot R)) (sl : Slot R),
        s.slots = a ++ sl :: b → (∀ x ∈ a, x.released = false) → sl.released = true →
        release (none : Option R) s
          = { slots := a ++ { sl with busy := false } :: b, log := s.log })
    ∧ ((∀ x ∈ s.slots, x.released = false) →
        release (none : Option R) s
          = { slots := s.slots,
              log := s.log ++ ["Tried to release unknown resource."] }) := by
  constructor
  · intro a b sl hdec ha hrel
    have hres : sl.resource = none := by
      have hsl : sl ∈ s.slots := by
        rw [hdec]
        exact List.mem_append_right a (List.mem_cons_self sl b)
      exact (hinv sl hsl).1 hrel
    have hpre : ∀ x ∈ a, x.resource ≠ (none : Option R) := by
      intro x hx
      have hxmem : x ∈ s.slots := by
        rw [hdec]
        exact List.mem_append_left _ hx
      exact (hinv x hxmem).2 (ha x hx)
    have hfound := releaseList_found (none : Option R) sl hres b a hpre
    unfold release
    rw [hdec, hfound]
  · intro hall
    have hu : ∀ x ∈ s.slots, x.resource ≠ (none : Option R) :=
      fun x hx => (hinv x hx).2 (hall x hx)
    unfold release
    rw [releaseList_none (none : Option R) s.slots hu]

/-- A pool whose middle slot has been shrunk away (and its busy flag later
cleared would be observable): slot 1 is released with busy set. -/
def mixedPool : PoolState Nat :=
  { slots := [{ resource := some 1, busy := false, released := false },
              { resource := none, busy := true, released := true },
              { resource := some 3, busy := false, released := false }],
    log := [] }

/-- Witness for C10: on `mixedPool`, releasing a null handle clears the busy
flag of the first released slot and logs nothing; on the fresh pool it takes
the diagnostic path. -/
theorem C10_witness :
    release (none : Option Nat) mixedPool
      = { slots := [{ resource := some 1, busy := false, released := false },
                    { resource := none, busy := false, released := true },
                    { resource := some 3, busy := false, released := false }],
          log := [] }
    ∧ release (none : Option Nat) pool3
      = { slots := pool3.slots,
          log := pool3.log ++ ["Tried to release unknown resource."] } :=
  ⟨(C10_null_handle mixedPool (by decide)).1
      [{ resource := some 1, busy := false, released := false }]
      [{ resource := some 3, busy := false, released := false }]
      { resource := none, busy := true, released := true }
      rfl (by decide) rfl,
   (C10_null_handle pool3 (by decide)).2 (by decide)⟩

end ARP
